import Mathlib

set_option autoImplicit false
set_option linter.unusedVariables false

/-!
Verification development for the contract test runner (`forge/src/runner.rs`).

The runner orchestrates unit, fuzz and invariant tests of one compiled
contract.  The simulated execution environment (deploy / call / state
snapshots) is an external collaborator of the runner; it is embedded here as
a record of oracle functions with explicit state passing, while the control
flow of `setup`, `run_tests`, `run_test` and `run_invariant_test` is
translated directly from the source.  Machine integers are `Nat` with an
explicit modulus where the source wraps; Rust panics (`expect`, `unwrap`,
`unreachable`) are embedded as `Except.error`; trace and log payloads are
opaque (`Nat` / `String`), only their presence or absence matters.
-/

namespace Foundry

abbrev Addr := Nat
abbrev Bytes := List Nat
abbrev Log := String

/-! ### Executable string primitives

The string operations the runner relies on (`to_lowercase`,
`starts_with`, the `BTreeMap` key order) are given list-based executable
definitions so that concrete runs of the model reduce. -/

/-- ASCII lowercasing of one character (the test function names the
runner compares are ASCII identifiers). -/
def lowerChar (c : Char) : Char :=
  if 65 ≤ c.toNat ∧ c.toNat ≤ 90 then Char.ofNat (c.toNat + 32) else c

/-- `str::to_lowercase`, on ASCII identifiers. -/
def lowerString (s : String) : String := ⟨s.data.map lowerChar⟩

/-- `str::starts_with`. -/
def strStartsWith (s p : String) : Bool := p.data.isPrefixOf s.data

/-- Lexicographic character-list order. -/
def strLtAux : List Char → List Char → Bool
  | [], [] => false
  | [], _ :: _ => true
  | _ :: _, [] => false
  | a :: as, b :: bs =>
    if a.toNat < b.toNat then true
    else if b.toNat < a.toNat then false
    else strLtAux as bs

/-- The strict key order of the `BTreeMap<String, _>` result map. -/
def stringLt (s t : String) : Bool := strLtAux s.data t.data

inductive TraceKind where
  | Deployment
  | Setup
  | Execution
  deriving DecidableEq

/-- An ABI function: a name plus the list of its input parameter types.
(`ethers::abi::Function`, as used by the runner.) -/
structure Func where
  name : String
  inputs : List String
  deriving DecidableEq

/-- `Function::signature`: name followed by the comma-separated parameter
types in parentheses. -/
def signature (f : Func) : String :=
  f.name ++ "(" ++ String.intercalate "," f.inputs ++ ")"

/-- One entry of an invariant counterexample: `(sender, target, calldata)`. -/
structure BaseCounterExample where
  sender : Addr
  addr : Addr
  calldata : Bytes
  deriving DecidableEq

inductive CounterExample where
  | Single (c : BaseCounterExample)
  | Sequence (cs : List BaseCounterExample)
  deriving DecidableEq

inductive TestKind where
  | Standard (gas : Nat)
  | Fuzz (cases : Nat)
  | Invariant (cases : Nat) (reverts : Nat)
  deriving DecidableEq

structure TestSetup where
  address : Addr
  logs : List Log
  traces : List (TraceKind × Nat)
  labeled_addresses : List (Addr × String)
  setup_failed : Bool
  reason : Option String
  deriving DecidableEq

structure TestResult where
  success : Bool
  reason : Option String
  counterexample : Option CounterExample
  logs : List Log
  kind : TestKind
  traces : List (TraceKind × Nat)
  coverage : Option Nat
  labeled_addresses : List (Addr × String)
  deriving DecidableEq

structure SuiteResult where
  test_results : List (String × TestResult)
  warnings : List String
  deriving DecidableEq

/-! ### u64 arithmetic

`TestKind::Standard` carries `gas.overflowing_sub(stipend).0`, a wrapping
`u64` subtraction. -/

def UINT64_MOD : Nat := 2 ^ 64

/-- `u64::overflowing_sub`, on `Nat` representatives of `u64` values. -/
def overflowingSub64 (a b : Nat) : Nat :=
  (a % UINT64_MOD + (UINT64_MOD - b % UINT64_MOD)) % UINT64_MOD

/-! ### The unit test executor (`run_test`)

The single non-committing call made by `run_test` is an oracle outcome:
either a successful `CallResult`, an `EvmError::Execution` revert carrying
the same payload plus a reason, or a hard error that `run_test` propagates.
The `is_success` classification hook of the executor is likewise an oracle.
-/

structure CallResult where
  reverted : Bool
  gas : Nat
  stipend : Nat
  logs : List Log
  traces : Option Nat
  coverage : Option Nat
  labels : List (Addr × String)
  state_changeset : Option Nat
  deriving DecidableEq

inductive ExecOutcome where
  | success (cr : CallResult)
  | executionErr (reason : String) (cr : CallResult)
  | hardErr (msg : String)
  deriving DecidableEq

/-- `ContractRunner::run_test`.  The `state_changeset.expect(..)` of the
source is the `Except.error` branch on a missing changeset. -/
def run_test (isSuccess : Addr → Bool → Nat → Bool → Bool) (outcome : ExecOutcome)
    (func : Func) (should_fail : Bool) (setup : TestSetup) : Except String TestResult :=
  match outcome with
  | .hardErr msg => .error msg
  | .success cr =>
    match cr.state_changeset with
    | none => .error "we should have a state changeset"
    | some cs =>
      .ok { success := isSuccess setup.address cr.reverted cs should_fail
          , reason := none
          , counterexample := none
          , logs := setup.logs ++ cr.logs
          , kind := .Standard (overflowingSub64 cr.gas cr.stipend)
          , traces := setup.traces ++ (cr.traces.map (fun t => (TraceKind.Execution, t))).toList
          , coverage := cr.coverage
          , labeled_addresses := setup.labeled_addresses ++ cr.labels }
  | .executionErr reason cr =>
    match cr.state_changeset with
    | none => .error "we should have a state changeset"
    | some cs =>
      .ok { success := isSuccess setup.address cr.reverted cs should_fail
          , reason := some reason
          , counterexample := none
          , logs := setup.logs ++ cr.logs
          , kind := .Standard (overflowingSub64 cr.gas cr.stipend)
          , traces := setup.traces ++ (cr.traces.map (fun t => (TraceKind.Execution, t))).toList
          , coverage := none
          , labeled_addresses := setup.labeled_addresses ++ cr.labels }

/-! Concrete fixtures used by counterexamples and witnesses. -/

def isS0 : Addr → Bool → Nat → Bool → Bool := fun _ _ _ _ => true

def setup0 : TestSetup :=
  { address := 0, logs := [], traces := [], labeled_addresses := []
  , setup_failed := false, reason := none }

def func0 : Func := { name := "testA", inputs := [] }

/-- A call result with `gas_used = 0` and `stipend = 1`. -/
def crWrap : CallResult :=
  { reverted := false, gas := 0, stipend := 1, logs := [], traces := none
  , coverage := none, labels := [], state_changeset := some 0 }

/-- Claim C5, counterexample: the reported gas is computed with `u64`
wrapping subtraction, not saturating subtraction.  With `gas_used = 0` and
`stipend = 1` the reported gas is `2 ^ 64 - 1`, while the saturating
difference is `0`. -/
theorem run_test_gas_wraps_counterexample :
    (run_test isS0 (.success crWrap) func0 false setup0).map TestResult.kind
        = Except.ok (TestKind.Standard 18446744073709551615)
      ∧ crWrap.gas - crWrap.stipend = 0
      ∧ (18446744073709551615 : Nat) ≠ 0 := by
  refine ⟨rfl, rfl, by decide⟩

/-- The `CallResult` payload carried by a non-hard-error execution
outcome: both the success arm and the `EvmError::Execution` (revert) arm
of `run_test` carry one; a hard error carries none. -/
def outcomeCallResult : ExecOutcome → Option CallResult
  | .success cr => some cr
  | .executionErr _ cr => some cr
  | .hardErr _ => none

/-- Claim C5 (amended): for every executed unit test — on the success
outcome as well as on the execution-revert outcome — the gas reported in
`TestKind::Standard` is the wrapping (`overflowing_sub`) difference
`gas_used - stipend` modulo `2 ^ 64`; it agrees with the saturating
difference whenever `stipend ≤ gas_used`, but wraps when the stipend
exceeds `gas_used`. -/
theorem run_test_gas_is_wrapping_sub (isS : Addr → Bool → Nat → Bool → Bool)
    (outcome : ExecOutcome) (func : Func) (should_fail : Bool) (setup : TestSetup)
    (cr : CallResult) (r : TestResult) (g : Nat)
    (hcr : outcomeCallResult outcome = some cr)
    (hg : cr.gas < UINT64_MOD) (hs : cr.stipend < UINT64_MOD)
    (hrun : run_test isS outcome func should_fail setup = .ok r)
    (hk : r.kind = .Standard g) :
    (g : Int) = ((cr.gas : Int) - (cr.stipend : Int)) % ((2 : Int) ^ 64)
      ∧ (cr.stipend ≤ cr.gas → g = cr.gas - cr.stipend) := by
  have hgval : g = overflowingSub64 cr.gas cr.stipend := by
    cases outcome with
    | hardErr msg => simp [outcomeCallResult] at hcr
    | success cr2 =>
      simp only [outcomeCallResult] at hcr
      injection hcr with hcr2
      subst hcr2
      cases hcs : cr2.state_changeset with
      | none => simp [run_test, hcs] at hrun
      | some cs =>
        simp only [run_test, hcs] at hrun
        cases hrun
        cases hk
        rfl
    | executionErr reason cr2 =>
      simp only [outcomeCallResult] at hcr
      injection hcr with hcr2
      subst hcr2
      cases hcs : cr2.state_changeset with
      | none => simp [run_test, hcs] at hrun
      | some cs =>
        simp only [run_test, hcs] at hrun
        cases hrun
        cases hk
        rfl
  subst hgval
  unfold overflowingSub64 UINT64_MOD at *
  constructor
  · omega
  · intro hle
    omega

/-- Witness for `run_test_gas_is_wrapping_sub`, exercising the
execution-revert outcome at `gas_used = 5`, `stipend = 2`. -/
theorem run_test_gas_is_wrapping_sub_witness :
    (3 : Int) = ((5 : Int) - (2 : Int)) % ((2 : Int) ^ 64)
      ∧ ((2 : Nat) ≤ 5 → (3 : Nat) = 5 - 2) := by
  have h := run_test_gas_is_wrapping_sub isS0
    (.executionErr "revert"
      { reverted := true, gas := 5, stipend := 2, logs := [], traces := none
      , coverage := none, labels := [], state_changeset := some 0 })
    func0 false setup0
    { reverted := true, gas := 5, stipend := 2, logs := [], traces := none
    , coverage := none, labels := [], state_changeset := some 0 }
    { success := true, reason := some "revert", counterexample := none, logs := []
    , kind := .Standard 3, traces := [], coverage := none, labeled_addresses := [] }
    3 rfl (by decide) (by decide) rfl rfl
  exact h

/-- Claim C10: whenever the (non-hard-error) execution outcome of the unit
test call carries a state changeset, the `expect` guarding success
classification cannot fire and `run_test` returns a `TestResult`. -/
theorem run_test_total_with_changeset (isS : Addr → Bool → Nat → Bool → Bool)
    (func : Func) (should_fail : Bool) (setup : TestSetup) (cr : CallResult)
    (cs : Nat) (reason : String)
    (hcs : cr.state_changeset = some cs) :
    (run_test isS (.success cr) func should_fail setup).isOk = true
      ∧ (run_test isS (.executionErr reason cr) func should_fail setup).isOk = true := by
  constructor
  · simp [run_test, hcs, Except.isOk, Except.toBool]
  · simp [run_test, hcs, Except.isOk, Except.toBool]

/-- Witness for `run_test_total_with_changeset`. -/
theorem run_test_total_with_changeset_witness :
    (run_test isS0 (.success crWrap) func0 false setup0).isOk = true
      ∧ (run_test isS0 (.executionErr "revert" crWrap) func0 false setup0).isOk = true :=
  run_test_total_with_changeset isS0 func0 false setup0 crWrap 0 "revert" rfl

/-! ### The result map

`run_tests` collects results in a `BTreeMap<String, TestResult>`: keys are
unique and kept in increasing order, later inserts overwrite.  We embed it
as a sorted association list. -/

/-- `BTreeMap::insert`. -/
def insertBT (k : String) (v : TestResult) : List (String × TestResult) → List (String × TestResult)
  | [] => [(k, v)]
  | (k', v') :: rest =>
    if stringLt k k' then (k, v) :: (k', v') :: rest
    else if k = k' then (k, v) :: rest
    else (k', v') :: insertBT k v rest

def keys (m : List (String × TestResult)) : List String := m.map Prod.fst

theorem mem_keys_insertBT (k x : String) (v : TestResult) (m : List (String × TestResult)) :
    x ∈ keys (insertBT k v m) ↔ x = k ∨ x ∈ keys m := by
  induction m with
  | nil => simp [insertBT, keys]
  | cons p rest ih =>
    obtain ⟨k', v'⟩ := p
    by_cases h1 : stringLt k k' = true
    · simp [insertBT, h1, keys]
    · by_cases h2 : k = k'
      · subst h2
        simp only [insertBT, if_neg h1, eq_self_iff_true, if_true, keys, List.map_cons,
          List.mem_cons]
        tauto
      · simp only [insertBT, if_neg h1, if_neg h2, keys, List.map_cons, List.mem_cons]
        rw [show (keys (insertBT k v rest) = (insertBT k v rest).map Prod.fst) from rfl] at ih
        rw [show (keys rest = rest.map Prod.fst) from rfl] at ih
        tauto

theorem pair_mem_insertBT_self (k : String) (v : TestResult) (m : List (String × TestResult)) :
    (k, v) ∈ insertBT k v m := by
  induction m with
  | nil => simp [insertBT]
  | cons p rest ih =>
    obtain ⟨k', v'⟩ := p
    by_cases h1 : stringLt k k' = true
    · simp [insertBT, h1]
    · by_cases h2 : k = k'
      · subst h2
        simp [insertBT, h1]
      · simp only [insertBT, if_neg h1, if_neg h2, List.mem_cons]
        right
        exact ih

theorem pair_mem_insertBT_of_ne (k x : String) (v w : TestResult)
    (m : List (String × TestResult)) (hne : x ≠ k) :
    ((x, w) ∈ insertBT k v m ↔ (x, w) ∈ m) := by
  have hxk : ¬ ((x, w) = (k, v)) := fun h => hne (congrArg Prod.fst h)
  induction m with
  | nil =>
    simp only [insertBT, List.mem_singleton, List.not_mem_nil, iff_false]
    exact hxk
  | cons p rest ih =>
    obtain ⟨k', v'⟩ := p
    by_cases h1 : stringLt k k' = true
    · simp only [insertBT, if_pos h1, List.mem_cons]
      tauto
    · by_cases h2 : k = k'
      · subst h2
        have hxk' : ¬ ((x, w) = (k, v')) := fun h => hne (congrArg Prod.fst h)
        simp only [insertBT, if_neg h1, eq_self_iff_true, if_true, List.mem_cons]
        tauto
      · simp only [insertBT, if_neg h1, if_neg h2, List.mem_cons]
        tauto

/-- Folding a list of key/value pairs into the map, as
`BTreeMap::extend` does. -/
def extendBT (m : List (String × TestResult)) (ps : List (String × TestResult)) :
    List (String × TestResult) :=
  ps.foldl (fun acc p => insertBT p.1 p.2 acc) m

theorem mem_keys_extendBT (x : String) (ps m : List (String × TestResult)) :
    x ∈ keys (extendBT m ps) ↔ x ∈ keys m ∨ ∃ p ∈ ps, x = p.1 := by
  induction ps generalizing m with
  | nil => simp [extendBT]
  | cons p rest ih =>
    simp only [extendBT, List.foldl_cons] at *
    rw [ih (insertBT p.1 p.2 m), mem_keys_insertBT]
    simp only [List.mem_cons]
    constructor
    · rintro ((h | h) | ⟨q, hq, he⟩)
      · exact Or.inr ⟨p, Or.inl rfl, h⟩
      · exact Or.inl h
      · exact Or.inr ⟨q, Or.inr hq, he⟩
    · rintro (h | ⟨q, (hq | hq), he⟩)
      · exact Or.inl (Or.inr h)
      · subst hq; exact Or.inl (Or.inl he)
      · exact Or.inr ⟨q, hq, he⟩

theorem pair_mem_extendBT_of_not_key (k : String) (v : TestResult) :
    ∀ (ps m : List (String × TestResult)), (∀ p ∈ ps, p.1 ≠ k) →
      (k, v) ∈ m → (k, v) ∈ extendBT m ps := by
  intro ps
  induction ps with
  | nil =>
    intro m _ hm
    simpa [extendBT] using hm
  | cons p rest ih =>
    intro m h hm
    simp only [extendBT, List.foldl_cons]
    refine ih (insertBT p.1 p.2 m) (fun q hq => h q (List.mem_cons_of_mem _ hq)) ?_
    exact (pair_mem_insertBT_of_ne p.1 k p.2 v m
      (fun he => (h p (List.mem_cons_self _ _)) he.symm)).mpr hm

theorem pair_mem_extendBT (k : String) (v : TestResult) :
    ∀ (ps m : List (String × TestResult)), (k, v) ∈ ps →
      (∀ p ∈ ps, p.1 = k → p = (k, v)) → (k, v) ∈ extendBT m ps := by
  intro ps
  induction ps with
  | nil =>
    intro m hmem _
    simp at hmem
  | cons p rest ih =>
    intro m hmem huniq
    simp only [extendBT, List.foldl_cons]
    by_cases hrest : (k, v) ∈ rest
    · exact ih (insertBT p.1 p.2 m) hrest (fun q hq => huniq q (List.mem_cons_of_mem _ hq))
    · have hp : p = (k, v) := by
        rcases List.mem_cons.mp hmem with h | h
        · exact h.symm
        · exact absurd h hrest
      subst hp
      refine pair_mem_extendBT_of_not_key k v rest (insertBT k v m) ?_ (pair_mem_insertBT_self k v m)
      intro q hq hqk
      have hqv : q = (k, v) := huniq q (List.mem_cons_of_mem _ hq) hqk
      rw [hqv] at hq
      exact hrest hq

/-! ### The suite orchestrator (`run_tests`)

The sub-executors (`setup`, `run_test`, `run_fuzz_test`,
`run_invariant_test`) are reached through method calls on `self`; at this
level they are oracles returning `Result`s, while the discovery, warning,
short-circuit and merging logic is translated directly. -/

structure TestOptions where
  include_fuzz_tests : Bool
  fuzz_runs : Nat
  fuzz_max_local_rejects : Nat
  fuzz_max_global_rejects : Nat
  invariant_runs : Nat
  invariant_depth : Nat
  invariant_fail_on_revert : Bool
  invariant_call_override : Bool
  deriving DecidableEq

structure RunnerOracles where
  doSetup : Bool → Except String TestSetup
  runTest : Func → Bool → TestSetup → Except String TestResult
  runFuzzTest : Func → Bool → TestSetup → Except String TestResult
  runInvariantTest : List Func → TestSetup → Except String (List TestResult)

/-- The functions whose lowercased name is `setup`. -/
def setupFns (contract : List Func) : List Func :=
  contract.filter (fun f => lowerString f.name == "setup")

/-- `needs_setup`: exactly one case-insensitive `setup` function exists and
it is spelled `setUp`. -/
def needsSetup (contract : List Func) : Bool :=
  (setupFns contract).length == 1
    && (((setupFns contract).head?.map Func.name).getD "" == "setUp")

/-- One warning per mis-cased `setup` function. -/
def setupWarnings (contract : List Func) : List String :=
  ((setupFns contract).filter (fun f => !(f.name == "setUp"))).map
    (fun f => "Found invalid setup function \"" ++ signature f ++ "\" did you mean \"setUp()\"?")

/-- The synthetic failing result returned when several `setUp` candidates
exist. -/
def multipleSetUpResult : TestResult :=
  { success := false, reason := some "Multiple setUp functions", counterexample := none
  , logs := [], kind := .Standard 0, traces := [], coverage := none, labeled_addresses := [] }

/-- The synthetic failing result returned when setup failed. -/
def setupFailedResult (st : TestSetup) : TestResult :=
  { success := false, reason := st.reason, counterexample := none, logs := st.logs
  , kind := .Standard 0, traces := st.traces, coverage := none
  , labeled_addresses := st.labeled_addresses }

def hasInvariants (contract : List Func) : Bool :=
  contract.any (fun f => strStartsWith f.name "invariant")

/-- Unit/fuzz test discovery: name prefixed `test`, signature accepted by
the filter, and either fuzz tests are included or the function takes no
inputs. -/
def testCandidates (contract : List Func) (filt : String → Bool) (opts : TestOptions) :
    List Func :=
  contract.filter (fun f =>
    strStartsWith f.name "test" && filt (signature f)
      && (opts.include_fuzz_tests || f.inputs.isEmpty))

/-- Invariant test discovery: name prefixed `invariant` and signature
accepted by the filter. -/
def invariantCandidates (contract : List Func) (filt : String → Bool) : List Func :=
  contract.filter (fun f => strStartsWith f.name "invariant" && filt (signature f))

def shouldFail (f : Func) : Bool := strStartsWith f.name "testFail"

/-- Dispatch of one discovered unit/fuzz test, keyed by its signature. -/
def runOne (orc : RunnerOracles) (setup : TestSetup) (f : Func) :
    Except String (String × TestResult) :=
  match (if f.inputs.isEmpty then orc.runTest f (shouldFail f) setup
         else orc.runFuzzTest f (shouldFail f) setup) with
  | .error e => .error e
  | .ok r => .ok (signature f, r)

/-- `collect::<Result<BTreeMap<_, _>>>` over the parallel unit/fuzz runs:
the first hard error aborts, otherwise all keyed results are collected. -/
def collectResults (orc : RunnerOracles) (setup : TestSetup) :
    List Func → Except String (List (String × TestResult))
  | [] => .ok []
  | f :: rest =>
    match runOne orc setup f with
    | .error e => .error e
    | .ok p =>
      match collectResults orc setup rest with
      | .error e => .error e
      | .ok ps => .ok (p :: ps)

def isInvKind : TestKind → Bool
  | .Invariant _ _ => true
  | _ => false

/-- Merging the invariant executor's results: each result is zipped with
its function and inserted under the function *name*; a non-`Invariant`
kind is the source's `unreachable!()`. -/
def mergeInvariant : List (TestResult × Func) → List (String × TestResult) →
    Except String (List (String × TestResult))
  | [], m => .ok m
  | (r, f) :: rest, m =>
    match r.kind with
    | .Invariant _ _ => mergeInvariant rest (insertBT f.name r m)
    | _ => .error "internal error: entered unreachable code"

/-- `ContractRunner::run_tests`. -/
def run_tests (contract : List Func) (filt : String → Bool) (opts : TestOptions)
    (orc : RunnerOracles) : Except String SuiteResult :=
  let warnings := setupWarnings contract
  if (setupFns contract).length > 1 then
    .ok { test_results := [("setUp()", multipleSetUpResult)], warnings := warnings }
  else
    match orc.doSetup (needsSetup contract) with
    | .error e => .error e
    | .ok setup =>
      if setup.setup_failed then
        .ok { test_results := [("setUp()", setupFailedResult setup)], warnings := warnings }
      else
        match collectResults orc setup (testCandidates contract filt opts) with
        | .error e => .error e
        | .ok testPairs =>
          let test_results := extendBT [] testPairs
          if hasInvariants contract && opts.include_fuzz_tests then
            match orc.runInvariantTest (invariantCandidates contract filt) setup with
            | .error e => .error e
            | .ok results =>
              match mergeInvariant (results.zip (invariantCandidates contract filt)) test_results with
              | .error e => .error e
              | .ok merged => .ok { test_results := merged, warnings := warnings }
          else
            .ok { test_results := test_results, warnings := warnings }

theorem length_filter_bool_not {α : Type} (p : α → Bool) (l : List α) :
    (l.filter p).length + (l.filter (fun x => !(p x))).length = l.length := by
  induction l with
  | nil => rfl
  | cons a t ih =>
    cases h : p a <;> simp [List.filter_cons, h] <;> omega

theorem collectResults_eq (orc : RunnerOracles) (st : TestSetup)
    (urt ufz : Func → Bool → TestSetup → TestResult)
    (hrt : orc.runTest = fun g b s => Except.ok (urt g b s))
    (hfz : orc.runFuzzTest = fun g b s => Except.ok (ufz g b s)) :
    ∀ l : List Func, collectResults orc st l
      = .ok (l.map (fun f => (signature f,
          if f.inputs.isEmpty then urt f (shouldFail f) st else ufz f (shouldFail f) st))) := by
  intro l
  induction l with
  | nil => rfl
  | cons f rest ih =>
    simp only [collectResults, runOne, hrt, hfz, ih, List.map_cons]
    by_cases h : f.inputs.isEmpty <;> simp [h]

theorem mergeInvariant_keys :
    ∀ (zl : List (TestResult × Func)) (m m' : List (String × TestResult)),
      mergeInvariant zl m = .ok m' →
      ∀ x, (x ∈ keys m' ↔ x ∈ keys m ∨ ∃ pr ∈ zl, x = pr.2.name) := by
  intro zl
  induction zl with
  | nil =>
    intro m m' h x
    simp only [mergeInvariant] at h
    cases h
    simp
  | cons pr rest ih =>
    intro m m' h x
    obtain ⟨r, f⟩ := pr
    simp only [mergeInvariant] at h
    cases hk : r.kind with
    | Standard g => rw [hk] at h; simp at h
    | Fuzz c => rw [hk] at h; simp at h
    | Invariant c rv =>
      rw [hk] at h
      rw [ih (insertBT f.name r m) m' h x, mem_keys_insertBT]
      simp only [List.mem_cons]
      constructor
      · rintro ((h1 | h1) | ⟨q, hq, he⟩)
        · exact Or.inr ⟨(r, f), Or.inl rfl, h1⟩
        · exact Or.inl h1
        · exact Or.inr ⟨q, Or.inr hq, he⟩
      · rintro (h1 | ⟨q, (hq | hq), he⟩)
        · exact Or.inl (Or.inr h1)
        · subst hq; exact Or.inl (Or.inl he)
        · exact Or.inr ⟨q, hq, he⟩

theorem mergeInvariant_ok :
    ∀ (zl : List (TestResult × Func)), (∀ pr ∈ zl, isInvKind pr.1.kind = true) →
      ∀ m, ∃ m', mergeInvariant zl m = .ok m' := by
  intro zl
  induction zl with
  | nil =>
    intro _ m
    exact ⟨m, rfl⟩
  | cons pr rest ih =>
    intro hk m
    obtain ⟨r, f⟩ := pr
    have hkr : isInvKind r.kind = true := hk (r, f) (List.mem_cons_self _ _)
    cases hcase : r.kind with
    | Standard g => rw [hcase] at hkr; simp [isInvKind] at hkr
    | Fuzz c => rw [hcase] at hkr; simp [isInvKind] at hkr
    | Invariant c rv =>
      obtain ⟨m', hm'⟩ := ih (fun q hq => hk q (List.mem_cons_of_mem _ hq)) (insertBT f.name r m)
      refine ⟨m', ?_⟩
      simp only [mergeInvariant, hcase]
      exact hm'

theorem pair_mem_mergeInvariant (k : String) (v : TestResult) :
    ∀ (zl : List (TestResult × Func)) (m m' : List (String × TestResult)),
      mergeInvariant zl m = .ok m' → (∀ pr ∈ zl, pr.2.name ≠ k) →
      ((k, v) ∈ m' ↔ (k, v) ∈ m) := by
  intro zl
  induction zl with
  | nil =>
    intro m m' h _
    simp only [mergeInvariant] at h
    cases h
    rfl
  | cons pr rest ih =>
    intro m m' h hne
    obtain ⟨r, f⟩ := pr
    simp only [mergeInvariant] at h
    cases hk : r.kind with
    | Standard g => rw [hk] at h; simp at h
    | Fuzz c => rw [hk] at h; simp at h
    | Invariant c rv =>
      rw [hk] at h
      rw [ih (insertBT f.name r m) m' h (fun q hq => hne q (List.mem_cons_of_mem _ hq))]
      exact pair_mem_insertBT_of_ne f.name k r v m
        (fun he => hne (r, f) (List.mem_cons_self _ _) (he ▸ rfl))

/-- Shorthand for the base result map of the unit/fuzz phase, with total
oracles factored through `urt`/`ufz`. -/
def baseResults (contract : List Func) (filt : String → Bool) (opts : TestOptions)
    (st : TestSetup) (urt ufz : Func → Bool → TestSetup → TestResult) :
    List (String × TestResult) :=
  extendBT [] ((testCandidates contract filt opts).map
    (fun f => (signature f, if f.inputs.isEmpty then urt f (shouldFail f) st
                            else ufz f (shouldFail f) st)))

theorem run_tests_no_invariant_branch (contract : List Func) (filt : String → Bool)
    (opts : TestOptions) (orc : RunnerOracles) (st : TestSetup)
    (urt ufz : Func → Bool → TestSetup → TestResult)
    (hlen : (setupFns contract).length ≤ 1)
    (hsetup : orc.doSetup (needsSetup contract) = .ok st)
    (hfail : st.setup_failed = false)
    (hrt : orc.runTest = fun g b s => Except.ok (urt g b s))
    (hfz : orc.runFuzzTest = fun g b s => Except.ok (ufz g b s))
    (hbr : (hasInvariants contract && opts.include_fuzz_tests) = false) :
    run_tests contract filt opts orc
      = .ok { test_results := baseResults contract filt opts st urt ufz
            , warnings := setupWarnings contract } := by
  have hgt : ¬ ((setupFns contract).length > 1) := by omega
  simp only [run_tests, if_neg hgt, hsetup, hfail,
    collectResults_eq orc st urt ufz hrt hfz, hbr, baseResults]
  rfl

theorem run_tests_invariant_branch (contract : List Func) (filt : String → Bool)
    (opts : TestOptions) (orc : RunnerOracles) (st : TestSetup)
    (urt ufz : Func → Bool → TestSetup → TestResult)
    (results : List TestResult) (merged : List (String × TestResult))
    (hlen : (setupFns contract).length ≤ 1)
    (hsetup : orc.doSetup (needsSetup contract) = .ok st)
    (hfail : st.setup_failed = false)
    (hrt : orc.runTest = fun g b s => Except.ok (urt g b s))
    (hfz : orc.runFuzzTest = fun g b s => Except.ok (ufz g b s))
    (hbr : (hasInvariants contract && opts.include_fuzz_tests) = true)
    (hres : orc.runInvariantTest (invariantCandidates contract filt) st = .ok results)
    (hmrg : mergeInvariant (results.zip (invariantCandidates contract filt))
        (baseResults contract filt opts st urt ufz) = .ok merged) :
    run_tests contract filt opts orc
      = .ok { test_results := merged, warnings := setupWarnings contract } := by
  have hgt : ¬ ((setupFns contract).length > 1) := by omega
  rw [baseResults] at hmrg
  simp only [run_tests, if_neg hgt, hsetup, hfail,
    collectResults_eq orc st urt ufz hrt hfz, hbr, hres, hmrg]
  rfl

theorem run_tests_invariant_oracle_error (contract : List Func) (filt : String → Bool)
    (opts : TestOptions) (orc : RunnerOracles) (st : TestSetup)
    (urt ufz : Func → Bool → TestSetup → TestResult) (e : String)
    (hlen : (setupFns contract).length ≤ 1)
    (hsetup : orc.doSetup (needsSetup contract) = .ok st)
    (hfail : st.setup_failed = false)
    (hrt : orc.runTest = fun g b s => Except.ok (urt g b s))
    (hfz : orc.runFuzzTest = fun g b s => Except.ok (ufz g b s))
    (hbr : (hasInvariants contract && opts.include_fuzz_tests) = true)
    (hres : orc.runInvariantTest (invariantCandidates contract filt) st = .error e) :
    run_tests contract filt opts orc = .error e := by
  have hgt : ¬ ((setupFns contract).length > 1) := by omega
  simp only [run_tests, if_neg hgt, hsetup, hfail,
    collectResults_eq orc st urt ufz hrt hfz, hbr, hres]
  rfl

theorem run_tests_merge_error (contract : List Func) (filt : String → Bool)
    (opts : TestOptions) (orc : RunnerOracles) (st : TestSetup)
    (urt ufz : Func → Bool → TestSetup → TestResult)
    (results : List TestResult) (e : String)
    (hlen : (setupFns contract).length ≤ 1)
    (hsetup : orc.doSetup (needsSetup contract) = .ok st)
    (hfail : st.setup_failed = false)
    (hrt : orc.runTest = fun g b s => Except.ok (urt g b s))
    (hfz : orc.runFuzzTest = fun g b s => Except.ok (ufz g b s))
    (hbr : (hasInvariants contract && opts.include_fuzz_tests) = true)
    (hres : orc.runInvariantTest (invariantCandidates contract filt) st = .ok results)
    (hmrg : mergeInvariant (results.zip (invariantCandidates contract filt))
        (baseResults contract filt opts st urt ufz) = .error e) :
    run_tests contract filt opts orc = .error e := by
  have hgt : ¬ ((setupFns contract).length > 1) := by omega
  rw [baseResults] at hmrg
  simp only [run_tests, if_neg hgt, hsetup, hfail,
    collectResults_eq orc st urt ufz hrt hfz, hbr, hres, hmrg]
  rfl

/-! Concrete fixtures for the orchestrator claims. -/

def trivialResult : TestResult :=
  { success := true, reason := none, counterexample := none, logs := []
  , kind := .Standard 0, traces := [], coverage := none, labeled_addresses := [] }

def invResult0 : TestResult :=
  { trivialResult with kind := .Invariant 1 0 }

def optsNoFuzz : TestOptions :=
  { include_fuzz_tests := false, fuzz_runs := 256, fuzz_max_local_rejects := 1024
  , fuzz_max_global_rejects := 65536, invariant_runs := 256, invariant_depth := 15
  , invariant_fail_on_revert := false, invariant_call_override := false }

def optsFuzz : TestOptions :=
  { optsNoFuzz with include_fuzz_tests := true }

def orcTriv : RunnerOracles :=
  { doSetup := fun _ => .ok setup0
  , runTest := fun _ _ _ => .ok trivialResult
  , runFuzzTest := fun _ _ _ => .ok trivialResult
  , runInvariantTest := fun fns _ => .ok (fns.map (fun _ => invResult0)) }

def setupFailed0 : TestSetup :=
  { setup0 with setup_failed := true, reason := some "Setup failed: revert" }

def orcFailSetup : RunnerOracles :=
  { orcTriv with doSetup := fun _ => .ok setupFailed0 }

def contractC2 : List Func := [{ name := "setUp", inputs := [] }, { name := "setup", inputs := [] }]

def contractC3 : List Func := [{ name := "testFoo", inputs := ["uint256"] }]

def contractC4 : List Func := [{ name := "invariant_a", inputs := [] }]

/-- Claim C8: if setup reports failure, `run_tests` returns a suite whose
only entry is keyed `"setUp()"`, unsuccessful and carrying the setup
failure reason; no other test runs. -/
theorem run_tests_setup_failure (contract : List Func) (filt : String → Bool)
    (opts : TestOptions) (orc : RunnerOracles) (st : TestSetup)
    (hlen : (setupFns contract).length ≤ 1)
    (hsetup : orc.doSetup (needsSetup contract) = .ok st)
    (hfail : st.setup_failed = true) :
    run_tests contract filt opts orc
      = .ok { test_results := [("setUp()", setupFailedResult st)]
            , warnings := setupWarnings contract }
      ∧ (setupFailedResult st).success = false
      ∧ (setupFailedResult st).reason = st.reason := by
  have hgt : ¬ ((setupFns contract).length > 1) := by omega
  refine ⟨?_, rfl, rfl⟩
  simp [run_tests, if_neg hgt, hsetup, hfail]

/-- Witness for `run_tests_setup_failure`. -/
theorem run_tests_setup_failure_witness :
    run_tests [] (fun _ => true) optsFuzz orcFailSetup
      = .ok { test_results := [("setUp()", setupFailedResult setupFailed0)]
            , warnings := setupWarnings [] }
      ∧ (setupFailedResult setupFailed0).success = false
      ∧ (setupFailedResult setupFailed0).reason = setupFailed0.reason :=
  run_tests_setup_failure [] (fun _ => true) optsFuzz orcFailSetup setupFailed0
    (by decide) rfl rfl

/-- Claim C2, counterexample: with the two functions `setUp()` and
`setup()` the suite does short-circuit: the only result is the synthetic
`"setUp()"` entry with reason "Multiple setUp functions"; the suite is not
run with the canonical hook. -/
theorem run_tests_two_setups_counterexample :
    run_tests contractC2 (fun _ => true) optsFuzz orcTriv
      = .ok { test_results := [("setUp()", multipleSetUpResult)]
            , warnings := ["Found invalid setup function \"setup()\" did you mean \"setUp()\"?"] }
      ∧ multipleSetUpResult.success = false
      ∧ multipleSetUpResult.reason = some "Multiple setUp functions" :=
  ⟨rfl, rfl, rfl⟩

/-- Claim C2 (amended): with exactly two case-insensitive `setup`
functions of which exactly one is spelled `setUp`, `run_tests` emits
exactly one warning about the mis-cased one, but short-circuits with the
single synthetic failing "setUp()" result ("Multiple setUp functions")
instead of running the suite. -/
theorem run_tests_two_setups_short_circuit (contract : List Func) (filt : String → Bool)
    (opts : TestOptions) (orc : RunnerOracles)
    (hlen : (setupFns contract).length = 2)
    (hone : ((setupFns contract).filter (fun f => f.name == "setUp")).length = 1) :
    run_tests contract filt opts orc
      = .ok { test_results := [("setUp()", multipleSetUpResult)]
            , warnings := setupWarnings contract }
      ∧ (setupWarnings contract).length = 1 := by
  constructor
  · have hgt : (setupFns contract).length > 1 := by omega
    simp [run_tests, if_pos hgt]
  · have h := length_filter_bool_not (fun f => f.name == "setUp") (setupFns contract)
    simp only [setupWarnings, List.length_map]
    omega

/-- Witness for `run_tests_two_setups_short_circuit`. -/
theorem run_tests_two_setups_short_circuit_witness :
    run_tests contractC2 (fun _ => true) optsFuzz orcTriv
      = .ok { test_results := [("setUp()", multipleSetUpResult)]
            , warnings := setupWarnings contractC2 }
      ∧ (setupWarnings contractC2).length = 1 :=
  run_tests_two_setups_short_circuit contractC2 (fun _ => true) optsFuzz orcTriv rfl rfl

theorem exists_mem_zip_right {α β : Type} :
    ∀ (l1 : List α) (l2 : List β) (b : β), l1.length = l2.length → b ∈ l2 →
      ∃ a, (a, b) ∈ l1.zip l2 := by
  intro l1
  induction l1 with
  | nil =>
    intro l2 b h hb
    cases l2 with
    | nil => simp at hb
    | cons x t => simp at h
  | cons a t ih =>
    intro l2 b h hb
    cases l2 with
    | nil => simp at hb
    | cons b' t2 =>
      rcases List.mem_cons.mp hb with hb1 | hb2
      · exact ⟨a, by simp [hb1]⟩
      · obtain ⟨x, hx⟩ := ih t2 b (by simpa using h) hb2
        exact ⟨x, List.mem_cons_of_mem _ hx⟩

/-- The keyed pair a discovered unit/fuzz test contributes to the base
result map, assuming its signature is unique in the contract. -/
theorem pair_mem_base (contract : List Func) (filt : String → Bool) (opts : TestOptions)
    (st : TestSetup) (urt ufz : Func → Bool → TestSetup → TestResult) (f : Func)
    (hf : f ∈ testCandidates contract filt opts)
    (huniq : ∀ g ∈ contract, signature g = signature f → g = f) :
    (signature f, if f.inputs.isEmpty then urt f (shouldFail f) st else ufz f (shouldFail f) st)
      ∈ baseResults contract filt opts st urt ufz := by
  rw [baseResults]
  apply pair_mem_extendBT
  · exact List.mem_map_of_mem _ hf
  · rintro p hp hkey
    obtain ⟨g, hg, rfl⟩ := List.mem_map.mp hp
    have hgf : g = f := huniq g (List.mem_of_mem_filter hg) hkey
    subst hgf
    rfl

theorem mem_keys_base (contract : List Func) (filt : String → Bool) (opts : TestOptions)
    (st : TestSetup) (urt ufz : Func → Bool → TestSetup → TestResult) (x : String) :
    x ∈ keys (baseResults contract filt opts st urt ufz)
      ↔ ∃ g ∈ testCandidates contract filt opts, x = signature g := by
  rw [baseResults, mem_keys_extendBT]
  simp only [keys, List.map_nil, List.not_mem_nil, false_or, List.mem_map]
  constructor
  · rintro ⟨p, ⟨g, hg, rfl⟩, he⟩
    exact ⟨g, hg, he⟩
  · rintro ⟨g, hg, he⟩
    exact ⟨(signature g, if g.inputs.isEmpty then urt g (shouldFail g) st
            else ufz g (shouldFail g) st), ⟨g, hg, rfl⟩, he⟩

/-- Claim C3, counterexample: a filtered `test`-prefixed function that
takes an input produces *no* `TestResult` at all when fuzz tests are
disabled — it is not run as a unit test. -/
theorem run_tests_fuzz_disabled_counterexample :
    run_tests contractC3 (fun _ => true) optsNoFuzz orcTriv
      = .ok { test_results := [], warnings := [] }
      ∧ signature { name := "testFoo", inputs := ["uint256"] } = "testFoo(uint256)"
      ∧ strStartsWith "testFoo" "test" = true :=
  ⟨rfl, rfl, rfl⟩

/-- Claim C3 (amended): an ABI function whose name starts with `test` and
whose signature passes the filter is run as a unit test iff it takes no
inputs, run as a fuzz test iff it takes inputs and fuzz tests are enabled,
and — when it takes inputs while fuzz tests are disabled — is excluded
from discovery entirely, producing no `TestResult`. -/
theorem run_tests_discovery (contract : List Func) (filt : String → Bool)
    (opts : TestOptions) (orc : RunnerOracles) (st : TestSetup)
    (urt ufz : Func → Bool → TestSetup → TestResult)
    (suite : SuiteResult) (f : Func)
    (hlen : (setupFns contract).length ≤ 1)
    (hsetup : orc.doSetup (needsSetup contract) = .ok st)
    (hfail : st.setup_failed = false)
    (hrt : orc.runTest = fun g b s => Except.ok (urt g b s))
    (hfz : orc.runFuzzTest = fun g b s => Except.ok (ufz g b s))
    (hrun : run_tests contract filt opts orc = .ok suite)
    (hf : f ∈ contract) (hname : strStartsWith f.name "test" = true)
    (hfilt : filt (signature f) = true)
    (huniq : ∀ g ∈ contract, signature g = signature f → g = f)
    (hdisj : ∀ g ∈ contract, strStartsWith g.name "invariant" = true → g.name ≠ signature f) :
    (f.inputs.isEmpty = true →
        (signature f, urt f (shouldFail f) st) ∈ suite.test_results)
      ∧ (f.inputs.isEmpty = false → opts.include_fuzz_tests = true →
        (signature f, ufz f (shouldFail f) st) ∈ suite.test_results)
      ∧ (f.inputs.isEmpty = false → opts.include_fuzz_tests = false →
        ¬ (signature f ∈ keys suite.test_results)) := by
  have hmem_cand : ∀ (hc : (strStartsWith f.name "test" && filt (signature f)
      && (opts.include_fuzz_tests || f.inputs.isEmpty)) = true),
      f ∈ testCandidates contract filt opts :=
    fun hc => List.mem_filter.mpr ⟨hf, hc⟩
  by_cases hbr : (hasInvariants contract && opts.include_fuzz_tests) = true
  · cases hres : orc.runInvariantTest (invariantCandidates contract filt) st with
    | error e =>
      rw [run_tests_invariant_oracle_error contract filt opts orc st urt ufz e
        hlen hsetup hfail hrt hfz hbr hres] at hrun
      simp at hrun
    | ok results =>
      cases hmrg : mergeInvariant (results.zip (invariantCandidates contract filt))
          (baseResults contract filt opts st urt ufz) with
      | error e =>
        rw [run_tests_merge_error contract filt opts orc st urt ufz results e
          hlen hsetup hfail hrt hfz hbr hres hmrg] at hrun
        simp at hrun
      | ok merged =>
        rw [run_tests_invariant_branch contract filt opts orc st urt ufz results merged
          hlen hsetup hfail hrt hfz hbr hres hmrg] at hrun
        injection hrun with hsuite
        subst hsuite
        have hfuzz : opts.include_fuzz_tests = true := by
          have hb := hbr
          rw [Bool.and_eq_true] at hb
          exact hb.2
        have hzip_ne : ∀ pr ∈ results.zip (invariantCandidates contract filt),
            pr.2.name ≠ signature f := by
          intro pr hpr
          have h2 := (List.of_mem_zip hpr).2
          have h2c := List.mem_of_mem_filter h2
          have h2p := (List.mem_filter.mp h2).2
          rw [Bool.and_eq_true] at h2p
          exact hdisj pr.2 h2c h2p.1
        refine ⟨?_, ?_, ?_⟩
        · intro hempty
          have hc : f ∈ testCandidates contract filt opts :=
            hmem_cand (by rw [hname, hfilt, hempty, hfuzz]; rfl)
          have hbase := pair_mem_base contract filt opts st urt ufz f hc huniq
          rw [hempty] at hbase
          simp only [if_true] at hbase
          exact (pair_mem_mergeInvariant (signature f) (urt f (shouldFail f) st) _ _ _
            hmrg hzip_ne).mpr hbase
        · intro hempty _
          have hc : f ∈ testCandidates contract filt opts :=
            hmem_cand (by rw [hname, hfilt, hempty, hfuzz]; rfl)
          have hbase := pair_mem_base contract filt opts st urt ufz f hc huniq
          rw [hempty] at hbase
          simp only [Bool.false_eq_true, if_false] at hbase
          exact (pair_mem_mergeInvariant (signature f) (ufz f (shouldFail f) st) _ _ _
            hmrg hzip_ne).mpr hbase
        · intro _ hnofuzz
          rw [hnofuzz] at hfuzz
          simp at hfuzz
  · have hbrf : (hasInvariants contract && opts.include_fuzz_tests) = false := by
      simpa using hbr
    rw [run_tests_no_invariant_branch contract filt opts orc st urt ufz
      hlen hsetup hfail hrt hfz hbrf] at hrun
    injection hrun with hsuite
    subst hsuite
    refine ⟨?_, ?_, ?_⟩
    · intro hempty
      have hc : f ∈ testCandidates contract filt opts :=
        hmem_cand (by rw [hname, hfilt, hempty]; simp)
      have hbase := pair_mem_base contract filt opts st urt ufz f hc huniq
      rw [hempty] at hbase
      simpa using hbase
    · intro hempty hfuzz
      have hc : f ∈ testCandidates contract filt opts :=
        hmem_cand (by rw [hname, hfilt, hempty, hfuzz]; rfl)
      have hbase := pair_mem_base contract filt opts st urt ufz f hc huniq
      rw [hempty] at hbase
      simpa using hbase
    · intro hempty hnofuzz
      intro hk
      rw [mem_keys_base] at hk
      obtain ⟨g, hg, he⟩ := hk
      have hgf : g = f := huniq g (List.mem_of_mem_filter hg) he.symm
      subst hgf
      have hp := (List.mem_filter.mp hg).2
      rw [hnofuzz, hempty] at hp
      simp at hp

/-- Witness for `run_tests_discovery`, on a contract with one no-input
unit test, one fuzz test and one invariant function, fuzzing enabled. -/
theorem run_tests_discovery_witness :
    ({ name := "testA", inputs := [] } : Func).inputs.isEmpty = true
      ∧ (signature { name := "testA", inputs := [] }, trivialResult)
          ∈ [("invariant_a", invResult0), ("testA()", trivialResult)] := by
  have h := run_tests_discovery
    [{ name := "testA", inputs := [] }, { name := "invariant_a", inputs := [] }]
    (fun _ => true) optsFuzz orcTriv setup0
    (fun _ _ _ => trivialResult) (fun _ _ _ => trivialResult)
    { test_results := [("invariant_a", invResult0), ("testA()", trivialResult)]
    , warnings := [] }
    { name := "testA", inputs := [] }
    (by decide) rfl rfl rfl rfl rfl
    (by simp) (by decide) rfl
    (by intro g hg hsig; revert hsig; fin_cases hg <;> decide)
    (by intro g hg hsw; revert hsw; fin_cases hg <;> decide)
  exact ⟨rfl, h.1 rfl⟩

/-- Claim C4, counterexample: with fuzz tests disabled, the filtered
invariant function `invariant_a` yields no `TestResult` at all — the whole
invariant phase is gated on `include_fuzz_tests`. -/
theorem run_tests_invariant_gated_counterexample :
    run_tests contractC4 (fun _ => true) optsNoFuzz orcTriv
      = .ok { test_results := [], warnings := [] }
      ∧ strStartsWith "invariant_a" "invariant" = true :=
  ⟨rfl, rfl⟩

/-- Claim C4 (amended): the invariant phase runs only when
`include_fuzz_tests` is enabled; in that case — provided the invariant
executor returns one result per filtered invariant function — every
filtered invariant function contributes an entry (keyed by its bare name)
to the suite's result map. -/
theorem run_tests_invariants_run (contract : List Func) (filt : String → Bool)
    (opts : TestOptions) (orc : RunnerOracles) (st : TestSetup)
    (urt ufz : Func → Bool → TestSetup → TestResult)
    (invRes : List TestResult) (suite : SuiteResult) (f : Func)
    (hlen : (setupFns contract).length ≤ 1)
    (hsetup : orc.doSetup (needsSetup contract) = .ok st)
    (hfail : st.setup_failed = false)
    (hrt : orc.runTest = fun g b s => Except.ok (urt g b s))
    (hfz : orc.runFuzzTest = fun g b s => Except.ok (ufz g b s))
    (hfuzz : opts.include_fuzz_tests = true)
    (hres : orc.runInvariantTest (invariantCandidates contract filt) st = .ok invRes)
    (hcnt : invRes.length = (invariantCandidates contract filt).length)
    (hrun : run_tests contract filt opts orc = .ok suite)
    (hf : f ∈ invariantCandidates contract filt) :
    f.name ∈ keys suite.test_results := by
  have hinv : hasInvariants contract = true := by
    have hfc := List.mem_of_mem_filter hf
    have hfp := (List.mem_filter.mp hf).2
    rw [Bool.and_eq_true] at hfp
    unfold hasInvariants
    exact List.any_eq_true.mpr ⟨f, hfc, hfp.1⟩
  have hbr : (hasInvariants contract && opts.include_fuzz_tests) = true := by
    rw [hinv, hfuzz]
    rfl
  cases hmrg : mergeInvariant (invRes.zip (invariantCandidates contract filt))
      (baseResults contract filt opts st urt ufz) with
  | error e =>
    rw [run_tests_merge_error contract filt opts orc st urt ufz invRes e
      hlen hsetup hfail hrt hfz hbr hres hmrg] at hrun
    simp at hrun
  | ok merged =>
    rw [run_tests_invariant_branch contract filt opts orc st urt ufz invRes merged
      hlen hsetup hfail hrt hfz hbr hres hmrg] at hrun
    injection hrun with hsuite
    subst hsuite
    obtain ⟨a, ha⟩ := exists_mem_zip_right invRes (invariantCandidates contract filt) f hcnt hf
    exact (mergeInvariant_keys _ _ _ hmrg f.name).mpr (Or.inr ⟨(a, f), ha, rfl⟩)

/-- Witness for `run_tests_invariants_run`. -/
theorem run_tests_invariants_run_witness :
    ("invariant_a" : String) ∈ keys [("invariant_a", invResult0)] :=
  run_tests_invariants_run contractC4 (fun _ => true) optsFuzz orcTriv setup0
    (fun _ _ _ => trivialResult) (fun _ _ _ => trivialResult)
    [invResult0]
    { test_results := [("invariant_a", invResult0)], warnings := [] }
    { name := "invariant_a", inputs := [] }
    (by decide) rfl rfl rfl rfl rfl rfl rfl rfl (by decide)

/-- Claim C9, counterexample: invariant results are inserted under the bare
function name: the only key of this suite is "invariant_a", which is not
the signature ("invariant_a()") of any contract function. -/
theorem run_tests_invariant_key_counterexample :
    run_tests contractC4 (fun _ => true) optsFuzz orcTriv
      = .ok { test_results := [("invariant_a", invResult0)], warnings := [] }
      ∧ signature { name := "invariant_a", inputs := [] } = "invariant_a()"
      ∧ ("invariant_a" : String) ≠ "invariant_a()" :=
  ⟨rfl, rfl, by decide⟩

/-- Claim C9 (amended): every key of the suite's result map is either the
full signature of a `test`-prefixed contract function (unit and fuzz
tests) or the *bare name* of an `invariant`-prefixed contract function
(invariant tests) — invariant entries are not keyed by signature. -/
theorem run_tests_result_keys (contract : List Func) (filt : String → Bool)
    (opts : TestOptions) (orc : RunnerOracles) (st : TestSetup)
    (urt ufz : Func → Bool → TestSetup → TestResult)
    (suite : SuiteResult) (k : String)
    (hlen : (setupFns contract).length ≤ 1)
    (hsetup : orc.doSetup (needsSetup contract) = .ok st)
    (hfail : st.setup_failed = false)
    (hrt : orc.runTest = fun g b s => Except.ok (urt g b s))
    (hfz : orc.runFuzzTest = fun g b s => Except.ok (ufz g b s))
    (hrun : run_tests contract filt opts orc = .ok suite)
    (hk : k ∈ keys suite.test_results) :
    (contract.any (fun g => (k == signature g) && strStartsWith g.name "test")
      || contract.any (fun g => (k == g.name) && strStartsWith g.name "invariant")) = true := by
  by_cases hbr : (hasInvariants contract && opts.include_fuzz_tests) = true
  · cases hres : orc.runInvariantTest (invariantCandidates contract filt) st with
    | error e =>
      rw [run_tests_invariant_oracle_error contract filt opts orc st urt ufz e
        hlen hsetup hfail hrt hfz hbr hres] at hrun
      simp at hrun
    | ok results =>
      cases hmrg : mergeInvariant (results.zip (invariantCandidates contract filt))
          (baseResults contract filt opts st urt ufz) with
      | error e =>
        rw [run_tests_merge_error contract filt opts orc st urt ufz results e
          hlen hsetup hfail hrt hfz hbr hres hmrg] at hrun
        simp at hrun
      | ok merged =>
        rw [run_tests_invariant_branch contract filt opts orc st urt ufz results merged
          hlen hsetup hfail hrt hfz hbr hres hmrg] at hrun
        injection hrun with hsuite
        subst hsuite
        have hk2 := (mergeInvariant_keys _ _ _ hmrg k).mp hk
        rcases hk2 with hk2 | ⟨pr, hpr, he⟩
        · rw [mem_keys_base] at hk2
          obtain ⟨g, hg, he⟩ := hk2
          have hgc := List.mem_of_mem_filter hg
          have hgp := (List.mem_filter.mp hg).2
          rw [Bool.and_eq_true, Bool.and_eq_true] at hgp
          rw [Bool.or_eq_true]
          left
          refine List.any_eq_true.mpr ⟨g, hgc, ?_⟩
          rw [Bool.and_eq_true]
          exact ⟨beq_iff_eq.mpr he, hgp.1.1⟩
        · have h2 := (List.of_mem_zip hpr).2
          have h2c := List.mem_of_mem_filter h2
          have h2p := (List.mem_filter.mp h2).2
          rw [Bool.and_eq_true] at h2p
          rw [Bool.or_eq_true]
          right
          refine List.any_eq_true.mpr ⟨pr.2, h2c, ?_⟩
          rw [Bool.and_eq_true]
          exact ⟨beq_iff_eq.mpr he, h2p.1⟩
  · have hbrf : (hasInvariants contract && opts.include_fuzz_tests) = false := by
      simpa using hbr
    rw [run_tests_no_invariant_branch contract filt opts orc st urt ufz
      hlen hsetup hfail hrt hfz hbrf] at hrun
    injection hrun with hsuite
    subst hsuite
    rw [mem_keys_base] at hk
    obtain ⟨g, hg, he⟩ := hk
    have hgc := List.mem_of_mem_filter hg
    have hgp := (List.mem_filter.mp hg).2
    rw [Bool.and_eq_true, Bool.and_eq_true] at hgp
    rw [Bool.or_eq_true]
    left
    refine List.any_eq_true.mpr ⟨g, hgc, ?_⟩
    rw [Bool.and_eq_true]
    exact ⟨beq_iff_eq.mpr he, hgp.1.1⟩

/-- Witness for `run_tests_result_keys`. -/
theorem run_tests_result_keys_witness :
    (contractC4.any (fun g => (("invariant_a" : String) == signature g)
        && strStartsWith g.name "test")
      || contractC4.any (fun g => (("invariant_a" : String) == g.name)
        && strStartsWith g.name "invariant")) = true :=
  run_tests_result_keys contractC4 (fun _ => true) optsFuzz orcTriv setup0
    (fun _ _ _ => trivialResult) (fun _ _ _ => trivialResult)
    { test_results := [("invariant_a", invResult0)], warnings := [] } "invariant_a"
    (by decide) rfl rfl rfl rfl rfl (by decide)

/-! ### The invariant test executor (`run_invariant_test`)

The executor's backing database is an abstract type `Db`; the raw
committing / non-committing calls and the exploration campaign
(`invariant_fuzz`, which lives in the external fuzzing crate) are oracles
with explicit state passing.  The replay loop is translated directly,
with its `expect`/`unwrap` panics embedded as `Except.error`; the trace
and log payloads collected for diagnostics are opaque, only the
`Option`-ness of a call's traces (whose `unwrap` can panic) is kept. -/

structure RawCallResult where
  reverted : Bool
  logs : List Log
  traces : Option Nat
  deriving DecidableEq

/-- One captured call of a failing sequence:
`(sender, (target, calldata))`. -/
abbrev Call3 := Addr × Addr × Bytes

/-- `proptest::TestError`: a failure carries the captured call sequence. -/
inductive TestErr where
  | fail (reason : String) (seq : List Call3)
  | abort
  deriving DecidableEq

structure InvariantFuzzError where
  test_error : TestErr
  revert_reason : String
  addr : Addr
  func : Option Bytes
  inner_sequence : Nat
  deriving DecidableEq

structure InvariantFuzzTestResult where
  invariants : List (String × Option InvariantFuzzError)
  cases : Nat
  reverts : Nat
  deriving DecidableEq

structure InvExecOracles (Db : Type) where
  call_raw_committing : Addr → Addr → Bytes → Db → Except String (RawCallResult × Db)
  call_raw : Addr → Addr → Bytes → Db → Except String RawCallResult
  invariant_fuzz : Db → Except String (Db × Option InvariantFuzzTestResult)

/-- `BaseCounterExample::create` on a captured call (contract
identification only affects display labels and is opaque here). -/
def mkCE3 (c : Call3) : BaseCounterExample :=
  { sender := c.1, addr := c.2.1, calldata := c.2.2 }

/-- The replay loop of `run_invariant_test`: re-execute each captured call
committing; after each call, if the broken invariant's function is known,
call it non-committing and stop as soon as it reverts.  The source's
`.expect("bad call to evm")` and `traces.unwrap()` are the error
branches. -/
def replay {Db : Type} (ex : InvExecOracles Db) (selfSender : Addr) (errAddr : Addr)
    (fopt : Option Bytes) : List Call3 → Db → Except String (List BaseCounterExample × Db)
  | [], db => .ok ([], db)
  | c :: rest, db =>
    match ex.call_raw_committing c.1 c.2.1 c.2.2 db with
    | .error _ => .error "bad call to evm"
    | .ok (res, db1) =>
      match res.traces with
      | none => .error "called unwrap on a missing execution trace"
      | some _ =>
        match fopt with
        | none =>
          match replay ex selfSender errAddr none rest db1 with
          | .error e => .error e
          | .ok (ces, db2) => .ok (mkCE3 c :: ces, db2)
        | some fb =>
          match ex.call_raw selfSender errAddr fb db1 with
          | .error _ => .error "bad call to evm"
          | .ok res2 =>
            if res2.reverted then
              match res2.traces with
              | none => .error "called unwrap on a missing execution trace"
              | some _ => .ok ([mkCE3 c], db1)
            else
              match replay ex selfSender errAddr (some fb) rest db1 with
              | .error e => .error e
              | .ok (ces, db2) => .ok (mkCE3 c :: ces, db2)

/-- The database reached by committing the given calls in order. -/
def commitN {Db : Type} (ex : InvExecOracles Db) : List Call3 → Db → Except String Db
  | [], db => .ok db
  | c :: rest, db =>
    match ex.call_raw_committing c.1 c.2.1 c.2.2 db with
    | .error e => .error e
    | .ok (_, db1) => commitN ex rest db1

/-- The per-invariant `TestResult` built at the end of the replay phase. -/
def mkInvariantResult (setup : TestSetup) (ftr : InvariantFuzzTestResult)
    (te : Option InvariantFuzzError) (ces : List BaseCounterExample) : TestResult :=
  { success := te.isNone
  , reason :=
      match te with
      | some err => if err.revert_reason = "" then none else some err.revert_reason
      | none => none
  , counterexample := if ces.isEmpty then none else some (.Sequence ces)
  , logs := setup.logs
  , kind := .Invariant ftr.cases ftr.reverts
  , traces := setup.traces
  , coverage := none
  , labeled_addresses := setup.labeled_addresses }

/-- Processing of one invariant's outcome: on a captured failure the
database is reset to the pre-exploration snapshot and the sequence is
replayed. -/
def processInvariant {Db : Type} (ex : InvExecOracles Db) (selfSender : Addr)
    (prevDb : Db) (ftr : InvariantFuzzTestResult) (setup : TestSetup) (db : Db)
    (te : Option InvariantFuzzError) : Except String (TestResult × Db) :=
  match te with
  | none => .ok (mkInvariantResult setup ftr none [], db)
  | some err =>
    match err.test_error with
    | .abort => .ok (mkInvariantResult setup ftr (some err) [], db)
    | .fail _ seq =>
      match replay ex selfSender err.addr err.func seq prevDb with
      | .error e => .error e
      | .ok (ces, db2) => .ok (mkInvariantResult setup ftr (some err) ces, db2)

def processInvariants {Db : Type} (ex : InvExecOracles Db) (selfSender : Addr)
    (prevDb : Db) (ftr : InvariantFuzzTestResult) (setup : TestSetup) :
    List (String × Option InvariantFuzzError) → Db →
    Except String (List TestResult × Db)
  | [], db => .ok ([], db)
  | (_, te) :: rest, db =>
    match processInvariant ex selfSender prevDb ftr setup db te with
    | .error e => .error e
    | .ok (r, db1) =>
      match processInvariants ex selfSender prevDb ftr setup rest db1 with
      | .error e => .error e
      | .ok (rs, db2) => .ok (r :: rs, db2)

/-- `ContractRunner::run_invariant_test`: snapshot the backing database,
run the exploration campaign, replay each captured failure, and — only on
the path that produced a fuzz result — restore the snapshot before
returning. -/
def run_invariant_test {Db : Type} (ex : InvExecOracles Db) (selfSender : Addr)
    (setup : TestSetup) (db0 : Db) : Except String (List TestResult × Db) :=
  match ex.invariant_fuzz db0 with
  | .error e => .error e
  | .ok (db1, none) => .ok ([], db1)
  | .ok (db1, some ftr) =>
    match processInvariants ex selfSender db0 ftr setup ftr.invariants db1 with
    | .error e => .error e
    | .ok (results, _) => .ok (results, db0)

/-! Concrete fixtures for the invariant executor claims (`Db := Nat`). -/

def rawOk : RawCallResult := { reverted := false, logs := [], traces := some 0 }

def rawRevert : RawCallResult := { reverted := true, logs := [], traces := some 0 }

/-- Committing calls bump the database; the invariant check reverts once
the database reaches `2`. -/
def exC1 : InvExecOracles Nat :=
  { call_raw_committing := fun _ _ _ db => .ok (rawOk, db + 1)
  , call_raw := fun _ _ _ db => .ok (if 2 ≤ db then rawRevert else rawOk)
  , invariant_fuzz := fun db => .ok (db, none) }

/-- Exploration mutates the database and produces no fuzz result. -/
def exC7 : InvExecOracles Nat :=
  { call_raw_committing := fun _ _ _ db => .ok (rawOk, db)
  , call_raw := fun _ _ _ _ => .ok rawOk
  , invariant_fuzz := fun db => .ok (db + 1, none) }

def errC6 : InvariantFuzzError :=
  { test_error := .fail "broken" [(1, 2, [3])], revert_reason := "broken"
  , addr := 5, func := some [9], inner_sequence := 0 }

def ftrC6 : InvariantFuzzTestResult :=
  { invariants := [("invariant_a()", some errC6)], cases := 1, reverts := 0 }

/-- Replaying the captured call fails with a hard EVM error. -/
def exC6 : InvExecOracles Nat :=
  { call_raw_committing := fun _ _ _ _ => .error "evm failure"
  , call_raw := fun _ _ _ _ => .ok rawOk
  , invariant_fuzz := fun db => .ok (db, some ftrC6) }

/-- A fuzz result whose single invariant held. -/
def ftrHeld : InvariantFuzzTestResult :=
  { invariants := [("invariant_a()", none)], cases := 1, reverts := 0 }

/-- Exploration mutates the database and reports the invariant held. -/
def exHeld : InvExecOracles Nat :=
  { call_raw_committing := fun _ _ _ db => .ok (rawOk, db + 1)
  , call_raw := fun _ _ _ _ => .ok rawOk
  , invariant_fuzz := fun db => .ok (db + 7, some ftrHeld) }

/-- Claim C7, counterexample: on the return path where the exploration
produced no fuzz result, the backing database is *not* restored to the
pre-exploration snapshot — the mutated database `1` is returned instead of
the snapshot `0`. -/
theorem run_invariant_test_no_restore_counterexample :
    run_invariant_test exC7 0 setup0 0 = .ok ([], 1) ∧ (1 : Nat) ≠ 0 :=
  ⟨rfl, by decide⟩

/-- Claim C7 (amended): on every return path on which the exploration
campaign produced a fuzz result, the backing database returned by
`run_invariant_test` equals the pre-exploration snapshot; when no fuzz
result is produced the database is left as exploration left it. -/
theorem run_invariant_test_restores_db {Db : Type} (ex : InvExecOracles Db)
    (selfSender : Addr) (setup : TestSetup) (db0 db1 : Db)
    (ftr : InvariantFuzzTestResult) (results : List TestResult) (dbf : Db)
    (hf : ex.invariant_fuzz db0 = .ok (db1, some ftr))
    (h : run_invariant_test ex selfSender setup db0 = .ok (results, dbf)) :
    dbf = db0 := by
  unfold run_invariant_test at h
  split at h
  · exact absurd h (by simp)
  · rename_i db1' heq
    rw [hf] at heq
    injection heq with heq2
    injection heq2 with ha hb
    exact absurd hb (by simp)
  · rename_i db1' ftr' heq
    split at h
    · exact absurd h (by simp)
    · injection h with h2
      injection h2 with ha hb
      exact hb.symm

/-- Witness for `run_invariant_test_restores_db`: exploration moves the
database from `0` to `7`, a result is produced, and the returned database
is the snapshot `0`. -/
theorem run_invariant_test_restores_db_witness : (0 : Nat) = 0 :=
  run_invariant_test_restores_db exHeld 0 setup0 0 7 ftrHeld
    [mkInvariantResult setup0 ftrHeld none []] 0 rfl rfl

/-- Claim C6, counterexample: when re-executing a captured call fails, the
replay phase panics (`expect("bad call to evm")`) instead of returning the
partially collected counterexample sequence: `run_invariant_test` returns
no result at all. -/
theorem run_invariant_test_replay_panic_counterexample :
    run_invariant_test exC6 0 setup0 0 = .error "bad call to evm" :=
  rfl

/-- Claim C6 (amended): if re-executing a captured call against the reset
environment fails, the replay loop panics with "bad call to evm" — the
partial counterexample sequence collected so far is discarded, not
returned. -/
theorem replay_panics_on_failed_call {Db : Type} (ex : InvExecOracles Db)
    (selfSender errAddr : Addr) (fopt : Option Bytes) (c : Call3)
    (rest : List Call3) (db : Db) (e : String)
    (hc : ex.call_raw_committing c.1 c.2.1 c.2.2 db = .error e) :
    replay ex selfSender errAddr fopt (c :: rest) db = .error "bad call to evm" := by
  obtain ⟨s, a, b⟩ := c
  simp only [replay, hc]

/-- Witness for `replay_panics_on_failed_call`. -/
theorem replay_panics_on_failed_call_witness :
    replay exC6 0 5 (some [9]) [(1, 2, [3])] 0 = .error "bad call to evm" :=
  replay_panics_on_failed_call exC6 0 5 (some [9]) (1, 2, [3]) [] 0 "evm failure" rfl

/-- Claim C1: a successful replay returns (as `BaseCounterExample`s) a
prefix of the captured sequence, never longer than it; when the broken
invariant's function is known, replay stops exactly at the first call
after which the non-committing invariant check reverts: the check after
the last replayed call reverted (whenever replay stopped early), and the
checks after all earlier calls did not. -/
theorem replay_shortest_prefix {Db : Type} (ex : InvExecOracles Db)
    (selfSender errAddr : Addr) (fopt : Option Bytes) :
    ∀ (seq : List Call3) (db : Db) (ces : List BaseCounterExample) (db2 : Db),
      replay ex selfSender errAddr fopt seq db = .ok (ces, db2) →
      ces.length ≤ seq.length
        ∧ ces = (seq.take ces.length).map mkCE3
        ∧ ∀ fb, fopt = some fb →
            ((ces.length < seq.length →
              ∀ dbk res2, commitN ex (seq.take ces.length) db = .ok dbk →
                ex.call_raw selfSender errAddr fb dbk = .ok res2 →
                  res2.reverted = true)
            ∧ (∀ j, 0 < j → j < ces.length →
              ∀ dbj res2, commitN ex (seq.take j) db = .ok dbj →
                ex.call_raw selfSender errAddr fb dbj = .ok res2 →
                  res2.reverted = false)) := by
  intro seq
  induction seq with
  | nil =>
    intro db ces db2 h
    simp only [replay] at h
    injection h with h1
    injection h1 with ha hb
    subst ha
    refine ⟨Nat.le_refl _, rfl, ?_⟩
    intro fb hfb
    refine ⟨?_, ?_⟩
    · intro hlt
      simp at hlt
    · intro j hj0 hjlt
      simp at hjlt
  | cons c rest ih =>
    intro db ces db2 h
    simp only [replay] at h
    split at h
    · exact absurd h (by simp)
    · rename_i res db1 hc
      split at h
      · exact absurd h (by simp)
      · rename_i t htr
        split at h
        · -- fopt = none: no invariant check, the whole sequence is replayed
          split at h
          · exact absurd h (by simp)
          · rename_i ces' db2' hrec
            injection h with h1
            injection h1 with ha hb
            subst ha
            obtain ⟨hlen, hpre, _⟩ := ih db1 ces' db2' hrec
            refine ⟨by simpa using Nat.succ_le_succ hlen, ?_, ?_⟩
            · rw [List.length_cons, List.take_succ_cons, List.map_cons, ← hpre]
            · intro fb hfb
              exact absurd hfb (by simp)
        · -- fopt = some fb: non-committing invariant check after the call
          rename_i fb
          split at h
          · exact absurd h (by simp)
          · rename_i res2 hinv
            split at h
            · -- the invariant check reverted: stop here
              rename_i hrev
              split at h
              · exact absurd h (by simp)
              · rename_i t2 htr2
                injection h with h1
                injection h1 with ha hb
                subst ha
                refine ⟨by simp [Nat.succ_le_succ], ?_, ?_⟩
                · simp
                · intro fb' hfb'
                  injection hfb' with hfb2
                  subst hfb2
                  refine ⟨?_, ?_⟩
                  · intro hlt dbk res2' hcommit hcall
                    simp only [List.length_singleton, List.take_succ_cons,
                      List.take_zero, commitN, hc] at hcommit
                    injection hcommit with hdbk
                    subst hdbk
                    rw [hinv] at hcall
                    injection hcall with hres2
                    subst hres2
                    exact hrev
                  · intro j hj0 hjlt
                    simp only [List.length_singleton] at hjlt
                    omega
            · -- the invariant check did not revert: continue replaying
              rename_i hrev
              split at h
              · exact absurd h (by simp)
              · rename_i ces' db2' hrec
                injection h with h1
                injection h1 with ha hb
                subst ha
                obtain ⟨hlen, hpre, hfbpart⟩ := ih db1 ces' db2' hrec
                obtain ⟨hpart1, hpart2⟩ := hfbpart fb rfl
                refine ⟨by simpa using Nat.succ_le_succ hlen, ?_, ?_⟩
                · rw [List.length_cons, List.take_succ_cons, List.map_cons, ← hpre]
                · intro fb' hfb'
                  injection hfb' with hfb2
                  subst hfb2
                  refine ⟨?_, ?_⟩
                  · intro hlt dbk res2' hcommit hcall
                    simp only [List.length_cons] at hlt
                    simp only [List.length_cons, List.take_succ_cons, commitN, hc] at hcommit
                    exact hpart1 (by omega) dbk res2' hcommit hcall
                  · intro j hj0 hjlt dbj res2' hcommit hcall
                    obtain ⟨n, rfl⟩ : ∃ n, j = n + 1 := ⟨j - 1, by omega⟩
                    simp only [List.take_succ_cons, commitN, hc] at hcommit
                    rcases Nat.eq_zero_or_pos n with hn | hn
                    · subst hn
                      simp only [List.take_zero, commitN] at hcommit
                      injection hcommit with hdbj
                      subst hdbj
                      rw [hinv] at hcall
                      injection hcall with hres2
                      subst hres2
                      simpa using hrev
                    · simp only [List.length_cons] at hjlt
                      exact hpart2 n hn (by omega) dbj res2' hcommit hcall

/-- Witness for `replay_shortest_prefix`: three captured calls, the
invariant check reverting once the database reaches `2`; replay stops
after the second call, returning a two-call prefix. -/
theorem replay_shortest_prefix_witness :
    replay exC1 0 9 (some [1]) [(1, 2, [5]), (3, 4, [6]), (7, 8, [9])] 0
        = .ok ([mkCE3 (1, 2, [5]), mkCE3 (3, 4, [6])], 2)
      ∧ ([mkCE3 (1, 2, [5]), mkCE3 (3, 4, [6])] : List BaseCounterExample).length
          ≤ ([(1, 2, [5]), (3, 4, [6]), (7, 8, [9])] : List Call3).length
      ∧ ([mkCE3 (1, 2, [5]), mkCE3 (3, 4, [6])] : List BaseCounterExample)
          = (([(1, 2, [5]), (3, 4, [6]), (7, 8, [9])] : List Call3).take 2).map mkCE3 := by
  have h := replay_shortest_prefix exC1 0 9 (some [1])
    [(1, 2, [5]), (3, 4, [6]), (7, 8, [9])] 0
    [mkCE3 (1, 2, [5]), mkCE3 (3, 4, [6])] 2 rfl
  exact ⟨rfl, h.1, h.2.1⟩

end Foundry
